import Mathlib

/-!
Verification model of the C-Thread-Pool library (src/thpool.h).

The repository ships only the header `thpool.h`: structure layouts and
documented declarations of every function, but not the implementation file.
The structures below are translated from the header; each operation is
modelled from the spec's description of its behavior (its doc comment says
so explicitly).  Pointers become `Option`-valued data, the intrusive linked
list of jobs becomes the list of its nodes in front-to-rear order, and the
C `int` fields stay `Int`.
-/

/-- A job (`job_t` in thpool.h): a function pointer, its argument and the
link to the next job.  Function and argument pointers are modelled as
`Option Nat` (`none` is the C `NULL`); the `prev` link is represented by
the position of the job in the queue's list. -/
structure job_t where
  function : Option Nat
  arg : Option Nat
deriving DecidableEq, Repr

/-- The binary semaphore (`bsem_t` in thpool.h): the mutex and condition
variable are synchronization devices with no sequential content, so only
the value field `v` is carried. -/
structure bsem_t where
  v : Int
deriving DecidableEq, Repr

/-- The job queue (`jobqueue_t` in thpool.h).  The intrusive linked list
from `front` to `rear` is modelled as `jobs`, front first; `len` is the
separate length counter the C code maintains; `has_jobs` is the embedded
binary semaphore. -/
structure jobqueue_t where
  jobs : List job_t
  len : Int
  has_jobs : bsem_t
deriving DecidableEq, Repr

/-- The `front` pointer of the queue: the oldest job, `none` when the list
is empty (the C `NULL`). -/
def jobqueue_front (q : jobqueue_t) : Option job_t :=
  q.jobs.head?

/-- The `rear` pointer of the queue: the newest job, `none` when the list
is empty (the C `NULL`). -/
def jobqueue_rear (q : jobqueue_t) : Option job_t :=
  q.jobs.getLast?

/-- A worker thread (`thread_t` in thpool.h): the `pthread_t` handle has no
sequential content, so only the `idle` flag is carried. -/
structure thread_t where
  idle : Bool
deriving DecidableEq, Repr

/-- The thread pool (`thpool_t` in thpool.h): the worker array, the worker
count and the job queue; the `rwmutex` is a synchronization device with no
sequential content. -/
structure thpool_t where
  threads : List thread_t
  threadsN : Int
  jobqueue : jobqueue_t
deriving DecidableEq, Repr

/-- Modelled from the spec: `bsem_post` (implementation not in src/, only
its declaration in thpool.h).  "post sets it to 1 and wakes one waiter
(idempotent if already 1 — no overflow)". -/
def bsem_post (b : bsem_t) : bsem_t :=
  { b with v := 1 }

/-- Modelled from the spec: `bsem_wait` (implementation not in src/, only
its declaration in thpool.h).  "wait blocks while value==0, then atomically
consumes it (sets to 0) upon waking".  `none` marks the blocked case, in
which the caller suspends and no state change has happened yet. -/
def bsem_wait (b : bsem_t) : Option bsem_t :=
  if b.v = 0 then none else some { b with v := 0 }

/-- Modelled from the spec: `jobqueue_init` (implementation not in src/,
only its declaration in thpool.h).  The queue starts with front = rear =
null, length 0 and its binary semaphore at initial value 0. -/
def jobqueue_init : jobqueue_t :=
  { jobs := [], len := 0, has_jobs := { v := 0 } }

/-- Modelled from the spec: `jobqueue_push` (implementation not in src/,
only its declaration in thpool.h).  "push(job): O(1) append at rear; ...
length+=1; signal.post()". -/
def jobqueue_push (q : jobqueue_t) (newjob : job_t) : jobqueue_t :=
  { jobs := q.jobs ++ [newjob]
    len := q.len + 1
    has_jobs := bsem_post q.has_jobs }

/-- Modelled from the spec: `jobqueue_pull` (implementation not in src/,
only its declaration in thpool.h).  "pull(): returns and unlinks front
(O(1)), or returns empty sentinel if length==0; decrements length; does not
free the job".  Returns the pulled job (the C return value, `none` being
`NULL`) together with the queue after the call. -/
def jobqueue_pull (q : jobqueue_t) : Option job_t × jobqueue_t :=
  if q.len = 0 then
    (none, q)
  else
    match q.jobs with
    | [] => (none, q)
    | j :: rest => (some j, { q with jobs := rest, len := q.len - 1 })

/-- Modelled from the spec: `jobqueue_clear` (implementation not in src/,
only its declaration in thpool.h).  "clear(): walks the linked list freeing
every job, resets front=rear=null, length=0." -/
def jobqueue_clear (q : jobqueue_t) : jobqueue_t :=
  { q with jobs := [], len := 0 }

/-- Modelled from the spec: `jobqueue_destroy` (implementation not in
src/, only its declaration in thpool.h).  It deallocates all jobs in the
queue and resets the queue to its initialization values; the second
component counts the `free` calls issued on queued jobs. -/
def jobqueue_destroy (q : jobqueue_t) : jobqueue_t × Nat :=
  (jobqueue_clear q, q.jobs.length)

/-- `jobqueue_push` iterated over a list of jobs, first job pushed first:
the sequence of pushes a submitter issues. -/
def jobqueue_pushAll (q : jobqueue_t) (js : List job_t) : jobqueue_t :=
  js.foldl jobqueue_push q

/-- `jobqueue_pull` iterated `n` times, collecting the jobs returned in
order: the sequence of pulls a single worker issues.  Pulling stops early
if the queue answers with the empty sentinel. -/
def jobqueue_pullN (q : jobqueue_t) : Nat → List job_t × jobqueue_t
  | 0 => ([], q)
  | n + 1 =>
    match jobqueue_pull q with
    | (none, q2) => ([], q2)
    | (some j, q2) =>
      let r := jobqueue_pullN q2 n
      (j :: r.1, r.2)

/-- Modelled from the spec: `thpool_add_work` (implementation not in src/,
only its declaration in thpool.h).  A null function pointer is rejected
with a failure code; otherwise a Job is allocated (the `allocOk` flag says
whether `malloc` succeeds), populated and pushed under the pool mutex.
Returns the C `int` result together with the pool after the call. -/
def thpool_add_work (allocOk : Bool) (t : thpool_t)
    (function_p : Option Nat) (arg_p : Option Nat) : Int × thpool_t :=
  match function_p with
  | none => (-1, t)
  | some f =>
    if allocOk then
      (0, { t with jobqueue := jobqueue_push t.jobqueue { function := some f, arg := arg_p } })
    else
      (-1, t)

/-- Modelled from the spec: `thpool_init` (implementation not in src/, only
its declaration in thpool.h).  `okPool`, `okQueue` and `okThreads` say
whether the successive allocations (pool struct; job queue with its binary
semaphore; worker array and threads) succeed.  The second and third
components count the allocations made and the frees issued during the
call, so that partial-failure cleanup is visible. -/
def thpool_init (okPool okQueue okThreads : Bool) (threadsN : Int) :
    Option thpool_t × Nat × Nat :=
  if threadsN ≤ 0 then
    (none, 0, 0)
  else if !okPool then
    (none, 0, 0)
  else if !okQueue then
    (none, 1, 1)
  else if !okThreads then
    (none, 2, 2)
  else
    (some { threads := List.replicate threadsN.toNat { idle := true }
            threadsN := threadsN
            jobqueue := jobqueue_init },
     2 + threadsN.toNat, 0)

/-- Modelled from the spec: the check of `thpool_wait`'s polling loop
(implementation not in src/, only its declaration in thpool.h).  The loop
may give back control only when the queue is observed empty and every
worker is idle. -/
def thpool_wait_check (t : thpool_t) : Bool :=
  (t.jobqueue.len == 0) && t.threads.all (fun w => w.idle)

/-- Modelled from the spec: `thpool_wait` (implementation not in src/,
only its declaration in thpool.h).  The polling loop is modelled over the
sequence of pool states observed at the successive polls: the call gives
back control at the first observation passing `thpool_wait_check`, and
keeps polling (`none`) when no observation passes. -/
def thpool_wait (observations : List thpool_t) : Option thpool_t :=
  observations.find? thpool_wait_check

/-- The whole system as the concurrency model sees it: the jobs the
submitting threads still have to hand to `thpool_add_work`, the shared job
queue, and the jobs already pulled and executed by workers, in execution
order. -/
structure sys_state where
  pending : List job_t
  queue : jobqueue_t
  executed : List job_t
deriving DecidableEq, Repr

/-- One interleaved step of the system: either some submitting thread
(any of them — the position inside `pending` is arbitrary) pushes its job
through `thpool_add_work`'s `jobqueue_push`, or a worker running
`thpool_thread_do` pulls the front job under the mutex and executes it.
Modelled from the spec's worker loop, the implementation of
`thpool_thread_do` not being in src/. -/
inductive sys_step : sys_state → sys_state → Prop where
  | submit (s : sys_state) (l1 l2 : List job_t) (j : job_t) :
      s.pending = l1 ++ j :: l2 →
      sys_step s { pending := l1 ++ l2
                   queue := jobqueue_push s.queue j
                   executed := s.executed }
  | work (s : sys_state) (j : job_t) (q : jobqueue_t) :
      jobqueue_pull s.queue = (some j, q) →
      sys_step s { pending := s.pending
                   queue := q
                   executed := s.executed ++ [j] }

/-- Zero or more interleaved steps of the system. -/
inductive sys_reaches : sys_state → sys_state → Prop where
  | refl (s : sys_state) : sys_reaches s s
  | tail (s t u : sys_state) : sys_reaches s t → sys_step t u → sys_reaches s u

/-- The multiset of jobs present anywhere in the system. -/
def sys_contents (s : sys_state) : Multiset job_t :=
  (s.pending : Multiset job_t) + (s.queue.jobs : Multiset job_t)
    + (s.executed : Multiset job_t)

/-- The initial system state: `js` jobs about to be submitted to a fresh
pool whose queue comes from `jobqueue_init`, nothing executed yet. -/
def sys_init (js : List job_t) : sys_state :=
  { pending := js, queue := jobqueue_init, executed := [] }

/-- Modelled from the spec: the effect of `thpool_destroy` on the system
(implementation not in src/, only its declaration in thpool.h).  Workers
finish the jobs they are executing, then the still-queued jobs are freed
by `jobqueue_destroy` without being invoked; `executed` is untouched.  The
second component counts the queued jobs freed. -/
def thpool_destroy (s : sys_state) : sys_state × Nat :=
  ({ s with queue := (jobqueue_destroy s.queue).1 }, (jobqueue_destroy s.queue).2)

/-- Queue states reachable through the queue's own operations. -/
inductive jobqueue_reachable : jobqueue_t → Prop where
  | init : jobqueue_reachable jobqueue_init
  | push (q : jobqueue_t) (j : job_t) :
      jobqueue_reachable q → jobqueue_reachable (jobqueue_push q j)
  | pull (q : jobqueue_t) :
      jobqueue_reachable q → jobqueue_reachable (jobqueue_pull q).2
  | clear (q : jobqueue_t) :
      jobqueue_reachable q → jobqueue_reachable (jobqueue_clear q)

/-- Binary-semaphore states reachable from initialization (the spec allows
initial value 0 or 1) through `bsem_post` and returning `bsem_wait`s. -/
inductive bsem_reachable : bsem_t → Prop where
  | init0 : bsem_reachable { v := 0 }
  | init1 : bsem_reachable { v := 1 }
  | post (b : bsem_t) : bsem_reachable b → bsem_reachable (bsem_post b)
  | wait (b b' : bsem_t) : bsem_reachable b → bsem_wait b = some b' → bsem_reachable b'

/-- The structural invariant of the queue: the length counter agrees with
the linked list, is never negative, and is zero exactly when front and
rear are null. -/
def jobqueue_inv (q : jobqueue_t) : Prop :=
  q.len = (q.jobs.length : Int)

/-- A sample job used to evaluate the pool on concrete inputs. -/
def sys_demo_job : job_t :=
  { function := some 1, arg := none }

/-- The system state reached after submitting `sys_demo_job` to a fresh
pool and letting a worker pull and execute it. -/
def sys_demo_final : sys_state :=
  { pending := []
    queue := { jobs := [], len := 0, has_jobs := { v := 1 } }
    executed := [sys_demo_job] }

theorem jobqueue_inv_reachable (q : jobqueue_t) (h : jobqueue_reachable q) :
    jobqueue_inv q := by
  induction h with
  | init => rfl
  | push q j _ ih =>
      simp [jobqueue_inv, jobqueue_push] at *
      omega
  | pull q _ ih =>
      unfold jobqueue_inv at *
      unfold jobqueue_pull
      rcases Decidable.em (q.len = 0) with h0 | h0
      · simp [h0]; omega
      · rcases hq : q.jobs with _ | ⟨j, rest⟩
        · rw [hq] at ih
          simp at ih
          exact absurd ih h0
        · simp [h0, hq]
          rw [ih, hq]
          simp
  | clear q _ ih =>
      simp [jobqueue_inv, jobqueue_clear]


theorem jobqueue_pull_some (q : jobqueue_t) (j : job_t) (q2 : jobqueue_t)
    (h : jobqueue_pull q = (some j, q2)) :
    q.jobs = j :: q2.jobs ∧ q2.len = q.len - 1 := by
  unfold jobqueue_pull at h
  rcases Decidable.em (q.len = 0) with h0 | h0
  · simp [h0] at h
  · rcases hq : q.jobs with _ | ⟨j0, rest⟩
    · simp [h0, hq] at h
    · simp [h0, hq] at h
      obtain ⟨hj, hq2⟩ := h
      subst hj
      subst hq2
      exact ⟨rfl, rfl⟩

theorem jobqueue_pushAll_spec (js : List job_t) (q : jobqueue_t) :
    (jobqueue_pushAll q js).jobs = q.jobs ++ js ∧
    (jobqueue_pushAll q js).len = q.len + js.length := by
  induction js generalizing q with
  | nil => simp [jobqueue_pushAll]
  | cons j rest ih =>
      obtain ⟨h1, h2⟩ := ih (jobqueue_push q j)
      have hstep : jobqueue_pushAll q (j :: rest)
          = jobqueue_pushAll (jobqueue_push q j) rest := rfl
      constructor
      · rw [hstep, h1]
        simp [jobqueue_push]
      · rw [hstep, h2]
        simp [jobqueue_push]
        omega

theorem jobqueue_pullN_all (l : List job_t) (q : jobqueue_t)
    (hjobs : q.jobs = l) (hlen : q.len = l.length) :
    (jobqueue_pullN q l.length).1 = l := by
  induction l generalizing q with
  | nil => simp [jobqueue_pullN]
  | cons j rest ih =>
      have hne : ¬ q.len = 0 := by
        rw [hlen]
        simp only [List.length_cons]
        push_cast
        omega
      have hpull : jobqueue_pull q
          = (some j, { q with jobs := rest, len := q.len - 1 }) := by
        unfold jobqueue_pull
        simp [hne, hjobs]
      have hrec := ih { q with jobs := rest, len := q.len - 1 } rfl
        (by rw [hlen]; simp only [List.length_cons]; push_cast; omega)
      show (jobqueue_pullN q (rest.length + 1)).1 = j :: rest
      rw [jobqueue_pullN, hpull]
      simpa using hrec

theorem sys_step_count (s t : sys_state) (h : sys_step s t) (x : job_t) :
    t.pending.count x + t.queue.jobs.count x + t.executed.count x
      = s.pending.count x + s.queue.jobs.count x + s.executed.count x := by
  cases h with
  | submit l1 l2 j hp =>
      simp [hp, jobqueue_push, List.count_append, List.count_cons]
      omega
  | work j q hpull =>
      obtain ⟨hjobs, _⟩ := jobqueue_pull_some s.queue j q hpull
      simp [hjobs, List.count_append, List.count_cons]
      omega

theorem sys_reaches_count (s t : sys_state) (h : sys_reaches s t) (x : job_t) :
    t.pending.count x + t.queue.jobs.count x + t.executed.count x
      = s.pending.count x + s.queue.jobs.count x + s.executed.count x := by
  induction h with
  | refl => rfl
  | tail t2 u _ hstep ih =>
      rw [sys_step_count t2 u hstep x, ih]

/-- C1: jobs come out of the queue in strict FIFO order — pushing any
sequence of jobs with `jobqueue_push` onto a fresh queue and then pulling
with `jobqueue_pull` as many times returns exactly that sequence, in
submission order; with a single worker draining the queue, completion
order therefore equals submission order. -/
theorem C1_fifo_order (js : List job_t) :
    (jobqueue_pullN (jobqueue_pushAll jobqueue_init js) js.length).1 = js := by
  obtain ⟨h1, h2⟩ := jobqueue_pushAll_spec js jobqueue_init
  exact jobqueue_pullN_all js _ (by simpa [jobqueue_init] using h1)
    (by simpa [jobqueue_init] using h2)

/-- C2: in every interleaving of submissions (from any number of
submitting threads) and worker pull-and-execute steps that starts from a
fresh pool with jobs `js` to submit and ends fully drained (nothing
pending, queue empty), the executed jobs are a permutation of `js` — each
job executed exactly once, none duplicated, none lost — so a counter
incremented once per execution equals the number of submitted jobs. -/
theorem C2_exactly_once (js : List job_t) (s : sys_state)
    (hr : sys_reaches (sys_init js) s)
    (hp : s.pending = []) (hq : s.queue.jobs = []) :
    s.executed.Perm js ∧ s.executed.length = js.length := by
  have hcount : ∀ x, s.executed.count x = js.count x := by
    intro x
    have h := sys_reaches_count (sys_init js) s hr x
    simp [sys_init, jobqueue_init, hp, hq] at h
    exact h
  have hperm : s.executed.Perm js := List.perm_iff_count.mpr hcount
  exact ⟨hperm, hperm.length_eq⟩

/-- Witness for C2: one job submitted to a fresh pool, then pulled and
executed by a worker; the drained state has executed exactly that job. -/
theorem C2_exactly_once_witness :
    sys_demo_final.executed.Perm [sys_demo_job]
      ∧ sys_demo_final.executed.length = 1 := by
  have h1 : sys_step (sys_init [sys_demo_job])
      { pending := ([] : List job_t) ++ []
        queue := jobqueue_push (sys_init [sys_demo_job]).queue sys_demo_job
        executed := (sys_init [sys_demo_job]).executed } :=
    sys_step.submit (sys_init [sys_demo_job]) [] [] sys_demo_job rfl
  have h2 : sys_step
      { pending := ([] : List job_t) ++ []
        queue := jobqueue_push (sys_init [sys_demo_job]).queue sys_demo_job
        executed := (sys_init [sys_demo_job]).executed }
      sys_demo_final := by
    have hpull : jobqueue_pull (jobqueue_push (sys_init [sys_demo_job]).queue sys_demo_job)
        = (some sys_demo_job, { jobs := [], len := 0, has_jobs := { v := 1 } }) := by
      decide
    exact sys_step.work _ sys_demo_job _ hpull
  have hr : sys_reaches (sys_init [sys_demo_job]) sys_demo_final :=
    sys_reaches.tail _ _ _ (sys_reaches.tail _ _ _ (sys_reaches.refl _) h1) h2
  exact C2_exactly_once [sys_demo_job] sys_demo_final hr rfl rfl

/-- C3: destroying a pool with jobs still queued never invokes those jobs
(the record of executed jobs is untouched, so their side effects do not
occur), frees every one of the K queued jobs (`free` is called exactly
`K = s.queue.jobs.length` times), and leaves the queue reset to
front = rear = null with length 0. -/
theorem C3_destroy_drops_queued (s : sys_state) :
    (thpool_destroy s).1.executed = s.executed ∧
    (thpool_destroy s).1.queue.jobs = [] ∧
    (thpool_destroy s).1.queue.len = 0 ∧
    jobqueue_front (thpool_destroy s).1.queue = none ∧
    jobqueue_rear (thpool_destroy s).1.queue = none ∧
    (thpool_destroy s).2 = s.queue.jobs.length :=
  ⟨rfl, rfl, rfl, rfl, rfl, rfl⟩

/-- C4: `thpool_add_work` with a null function pointer returns the nonzero
failure code -1 and leaves the pool — in particular its job queue —
unchanged, whether or not the job allocation would have succeeded. -/
theorem C4_null_function_rejected (allocOk : Bool) (t : thpool_t)
    (arg_p : Option Nat) :
    (thpool_add_work allocOk t none arg_p).1 = -1 ∧
    (thpool_add_work allocOk t none arg_p).2 = t :=
  ⟨rfl, rfl⟩

/-- C5: with a non-null function, `thpool_add_work` returns 0 exactly when
the job allocation succeeds, and then the queue grows by exactly the one
new job; when the allocation fails it returns the nonzero code -1 and the
pool is unchanged — so a nonzero return happens only on allocation
failure. -/
theorem C5_add_work_result (t : thpool_t) (f : Nat) (arg_p : Option Nat) :
    (thpool_add_work true t (some f) arg_p).1 = 0 ∧
    (thpool_add_work true t (some f) arg_p).2.jobqueue.len
      = t.jobqueue.len + 1 ∧
    (thpool_add_work true t (some f) arg_p).2.jobqueue.jobs
      = t.jobqueue.jobs ++ [{ function := some f, arg := arg_p }] ∧
    thpool_add_work false t (some f) arg_p = (-1, t) :=
  ⟨rfl, rfl, rfl, rfl⟩

/-- C6: `thpool_init` with a zero or negative thread count returns null
(no crash, nothing allocated); when any allocation fails it returns null
having freed exactly what it had allocated; and with `threadsN ≥ 1` and
all allocations succeeding it returns a pool with exactly `threadsN`
worker threads, each starting idle. -/
theorem C6_init_behavior (okPool okQueue okThreads : Bool) (threadsN : Int) :
    (threadsN ≤ 0 → thpool_init okPool okQueue okThreads threadsN = (none, 0, 0)) ∧
    ((thpool_init okPool okQueue okThreads threadsN).1 = none →
      (thpool_init okPool okQueue okThreads threadsN).2.1
        = (thpool_init okPool okQueue okThreads threadsN).2.2) ∧
    (1 ≤ threadsN →
      (thpool_init true true true threadsN).1
        = some { threads := List.replicate threadsN.toNat { idle := true }
                 threadsN := threadsN
                 jobqueue := jobqueue_init } ∧
      (List.replicate threadsN.toNat ({ idle := true } : thread_t)).length
        = threadsN.toNat ∧
      (∀ w ∈ List.replicate threadsN.toNat ({ idle := true } : thread_t),
        w.idle = true)) := by
  refine ⟨?_, ?_, ?_⟩
  · intro h
    unfold thpool_init
    rw [if_pos h]
  · intro h
    unfold thpool_init at *
    split_ifs at * <;> simp_all
  · intro h
    have hn : ¬ threadsN ≤ 0 := by omega
    refine ⟨?_, by simp, ?_⟩
    · unfold thpool_init
      rw [if_neg hn]
      simp
    · intro w hw
      rw [List.mem_replicate] at hw
      rw [hw.2]

/-- Witness for C6: thread count 0 is rejected; a failed thread allocation
at count 2 frees exactly what it allocated; with every allocation
succeeding at count 2 the pool has its 2 workers. -/
theorem C6_init_behavior_witness :
    thpool_init true true false 0 = (none, 0, 0) ∧
    (thpool_init true true false 2).2.1 = (thpool_init true true false 2).2.2 ∧
    (thpool_init true true true 2).1
      = some { threads := List.replicate (2 : Int).toNat { idle := true }
               threadsN := 2
               jobqueue := jobqueue_init } :=
  ⟨(C6_init_behavior true true false 0).1 (by decide),
   (C6_init_behavior true true false 2).2.1 (by decide),
   ((C6_init_behavior true true true 2).2.2 (by decide)).1⟩

/-- C7: in every queue state reachable through `jobqueue_init`,
`jobqueue_push`, `jobqueue_pull` and `jobqueue_clear`, the length counter
is nonnegative, equals the number of linked jobs reachable from the front
pointer, and is zero exactly when front and rear are both null. -/
theorem C7_queue_invariant (q : jobqueue_t) (h : jobqueue_reachable q) :
    0 ≤ q.len ∧
    q.len = (q.jobs.length : Int) ∧
    (q.len = 0 ↔ jobqueue_front q = none ∧ jobqueue_rear q = none) := by
  have hinv := jobqueue_inv_reachable q h
  unfold jobqueue_inv at hinv
  refine ⟨by rw [hinv]; exact Int.ofNat_nonneg _, hinv, ?_⟩
  constructor
  · intro h0
    have hnil : q.jobs = [] := by
      rw [hinv] at h0
      simpa using h0
    simp [jobqueue_front, jobqueue_rear, hnil]
  · rintro ⟨hf, _⟩
    unfold jobqueue_front at hf
    have hnil : q.jobs = [] := by
      cases hq : q.jobs with
      | nil => rfl
      | cons j rest => rw [hq] at hf; simp at hf
    rw [hinv, hnil]
    rfl

/-- Witness for C7: the invariant holds at the freshly initialized queue. -/
theorem C7_queue_invariant_witness :
    0 ≤ jobqueue_init.len ∧
    jobqueue_init.len = (jobqueue_init.jobs.length : Int) ∧
    (jobqueue_init.len = 0 ↔
      jobqueue_front jobqueue_init = none ∧ jobqueue_rear jobqueue_init = none) :=
  C7_queue_invariant jobqueue_init jobqueue_reachable.init

/-- C8: in every reachable binary-semaphore state the value is 0 or 1;
`bsem_post` sets the value to 1 and is idempotent (a second post changes
nothing, so the value never overflows past 1); `bsem_wait` blocks while
the value is 0 and otherwise returns with the value consumed back to 0. -/
theorem C8_bsem_invariant (b : bsem_t) (h : bsem_reachable b) :
    (b.v = 0 ∨ b.v = 1) ∧
    (bsem_post b).v = 1 ∧
    bsem_post (bsem_post b) = bsem_post b ∧
    (b.v = 0 → bsem_wait b = none) ∧
    (∀ b2, bsem_wait b = some b2 → b2.v = 0) := by
  refine ⟨?_, rfl, rfl, ?_, ?_⟩
  · induction h with
    | init0 => left; rfl
    | init1 => right; rfl
    | post b0 _ _ => right; rfl
    | wait b0 b2 _ hw _ =>
        unfold bsem_wait at hw
        rcases Decidable.em (b0.v = 0) with h0 | h0
        · simp [h0] at hw
        · simp [h0] at hw
          left
          rw [← hw]
  · intro h0
    simp [bsem_wait, h0]
  · intro b2 hw
    unfold bsem_wait at hw
    rcases Decidable.em (b.v = 0) with h0 | h0
    · simp [h0] at hw
    · simp [h0] at hw
      rw [← hw]

/-- Witness for C8: at the initial value 0 the invariant holds and `wait`
blocks; the posted semaphore has value 1 and its `wait` returns value 0. -/
theorem C8_bsem_invariant_witness :
    ((({ v := 0 } : bsem_t)).v = 0 ∨ (({ v := 0 } : bsem_t)).v = 1) ∧
    bsem_wait { v := 0 } = none ∧
    (({ v := 0 } : bsem_t)).v = 0 :=
  ⟨(C8_bsem_invariant { v := 0 } bsem_reachable.init0).1,
   (C8_bsem_invariant { v := 0 } bsem_reachable.init0).2.2.2.1 rfl,
   (C8_bsem_invariant { v := 1 } bsem_reachable.init1).2.2.2.2
     { v := 0 } (by decide)⟩

/-- C9: on a reachable queue, `jobqueue_pull` with length 0 returns the
null sentinel and leaves the queue untouched; with nonzero length it
returns the front job itself (ownership passes to the caller — the job is
not freed), unlinks it and decrements the length by one. -/
theorem C9_pull_behavior (q : jobqueue_t) (h : jobqueue_reachable q) :
    (q.len = 0 → jobqueue_pull q = (none, q)) ∧
    (q.len ≠ 0 → ∃ j rest, q.jobs = j :: rest ∧ jobqueue_front q = some j ∧
      jobqueue_pull q = (some j, { q with jobs := rest, len := q.len - 1 })) := by
  have hinv := jobqueue_inv_reachable q h
  unfold jobqueue_inv at hinv
  constructor
  · intro h0
    unfold jobqueue_pull
    simp [h0]
  · intro h0
    rcases hq : q.jobs with _ | ⟨j, rest⟩
    · rw [hq] at hinv
      simp at hinv
      exact absurd hinv h0
    · refine ⟨j, rest, rfl, by simp [jobqueue_front, hq], ?_⟩
      unfold jobqueue_pull
      simp [h0, hq]

/-- Witness for C9: pulling from the fresh empty queue returns null and
the unchanged queue; pulling after one push returns that job and the
emptied queue. -/
theorem C9_pull_behavior_witness :
    jobqueue_pull jobqueue_init = (none, jobqueue_init) ∧
    jobqueue_pull (jobqueue_push jobqueue_init sys_demo_job)
      = (some sys_demo_job, { jobs := [], len := 0, has_jobs := { v := 1 } }) := by
  constructor
  · exact (C9_pull_behavior jobqueue_init jobqueue_reachable.init).1 rfl
  · have h := (C9_pull_behavior (jobqueue_push jobqueue_init sys_demo_job)
      (jobqueue_reachable.push jobqueue_init sys_demo_job jobqueue_reachable.init)).2
      (by decide)
    obtain ⟨j, rest, hjobs, _, hpull⟩ := h
    have hj : sys_demo_job = j ∧ ([] : List job_t) = rest := by
      simpa [jobqueue_push, jobqueue_init, sys_demo_job] using hjobs
    obtain ⟨hj1, hj2⟩ := hj
    rw [hpull, ← hj1, ← hj2]
    decide

/-- C10: whenever `thpool_wait`'s polling loop lets the call return — it
hands back the first observed pool state passing `thpool_wait_check` — the
queue length is 0 and every worker is idle at that observation; the call
never returns at an observation with a non-idle worker or a non-empty
queue. -/
theorem C10_wait_returns_drained (observations : List thpool_t) (t : thpool_t)
    (h : thpool_wait observations = some t) :
    t.jobqueue.len = 0 ∧ ∀ w ∈ t.threads, w.idle = true := by
  have hc : thpool_wait_check t = true := List.find?_some h
  unfold thpool_wait_check at hc
  simp at hc
  exact hc

/-- Witness for C10: a single observation of a drained one-worker pool
lets the polling loop return, and its queue length is 0. -/
theorem C10_wait_returns_drained_witness :
    ({ threads := [{ idle := true }], threadsN := 1,
       jobqueue := jobqueue_init } : thpool_t).jobqueue.len = 0 :=
  (C10_wait_returns_drained
    [{ threads := [{ idle := true }], threadsN := 1, jobqueue := jobqueue_init }]
    { threads := [{ idle := true }], threadsN := 1, jobqueue := jobqueue_init }
    (by decide)).1
